import Mathlib

/-!
Verification of the DownLoadMap tile downloader.

The development shallowly embeds the two Python modules of the repository:

* `globalmaptiles.py` — the `GlobalMercator` and `GlobalGeodetic`
  coordinate-conversion classes.  Real-valued arithmetic (floats in the
  source) is embedded as exact real arithmetic over `ℝ`; `int(math.ceil x)`
  becomes `Int.ceil`; the `for`-loop of `ZoomForPixelSize`, which can fall
  off the end and return Python `None`, is embedded with an explicit fuel
  counter returning `Option ℕ`.

* `DownLoadStreetMapTool.py` — the coverage planner and download dispatcher
  of `GUI.download`.  The per-level corner tiles are obtained through
  `LatLon2GoogleTile`; the triple loop over levels / x / y is embedded as a
  fold over the enumerated tile list, threading the progress counter and the
  list of submitted destination paths.  The filesystem is modelled as the
  list of paths currently present; the external celery worker of
  `download.py` fulfils its contract by writing each submitted destination
  path.

Tile size is kept as an explicit first argument of every method of the two
classes, mirroring `self.tileSize`.
-/

namespace GlobalMercator

/-- `self.originShift = 2 * math.pi * 6378137 / 2.0` from `GlobalMercator.__init__`. -/
noncomputable def originShift : ℝ := 2 * Real.pi * 6378137 / 2

/-- `self.initialResolution = 2 * math.pi * 6378137 / self.tileSize` from
`GlobalMercator.__init__`. -/
noncomputable def initialResolution (tileSize : ℝ) : ℝ := 2 * Real.pi * 6378137 / tileSize

/-- `GlobalMercator.LatLonToMeters`: `mx = lon * originShift / 180`,
`my = log(tan((90 + lat) * pi / 360)) / (pi / 180) * originShift / 180`. -/
noncomputable def LatLonToMeters (lat lon : ℝ) : ℝ × ℝ :=
  (lon * originShift / 180,
   Real.log (Real.tan ((90 + lat) * Real.pi / 360)) / (Real.pi / 180) * originShift / 180)

/-- `GlobalMercator.MetersToLatLon`: `lon = (mx / originShift) * 180`,
`lat = 180 / pi * (2 * atan(exp(((my / originShift) * 180) * pi / 180)) - pi / 2)`;
the Python method returns the pair `(lat, lon)`. -/
noncomputable def MetersToLatLon (mx my : ℝ) : ℝ × ℝ :=
  (180 / Real.pi *
     (2 * Real.arctan (Real.exp ((my / originShift * 180) * (Real.pi / 180))) - Real.pi / 2),
   mx / originShift * 180)

/-- `GlobalMercator.Resolution`: `initialResolution / (2**zoom)`. -/
noncomputable def Resolution (tileSize : ℝ) (zoom : ℕ) : ℝ :=
  initialResolution tileSize / 2 ^ zoom

/-- `GlobalMercator.MetersToPixels`: `px = (mx + originShift) / res`,
`py = (my + originShift) / res` with `res = Resolution(zoom)`. -/
noncomputable def MetersToPixels (tileSize mx my : ℝ) (zoom : ℕ) : ℝ × ℝ :=
  ((mx + originShift) / Resolution tileSize zoom,
   (my + originShift) / Resolution tileSize zoom)

/-- `GlobalMercator.PixelsToTile`: `tx = int(ceil(px / float(tileSize)) - 1)`,
similarly `ty`.  `math.ceil` on a real is `Int.ceil`; the outer `int(...)`
truncation is the identity on the integer value `ceil(..) - 1`. -/
noncomputable def PixelsToTile (tileSize px py : ℝ) : ℤ × ℤ :=
  (Int.ceil (px / tileSize) - 1, Int.ceil (py / tileSize) - 1)

/-- `GlobalMercator.MetersToTile`: `PixelsToTile(MetersToPixels(mx, my, zoom))`. -/
noncomputable def MetersToTile (tileSize mx my : ℝ) (zoom : ℕ) : ℤ × ℤ :=
  PixelsToTile tileSize (MetersToPixels tileSize mx my zoom).1
    (MetersToPixels tileSize mx my zoom).2

/-- `GlobalMercator.GoogleTile`: `(tx, (2**zoom - 1) - ty)`. -/
def GoogleTile (tx ty : ℤ) (zoom : ℕ) : ℤ × ℤ := (tx, (2 ^ zoom - 1) - ty)

/-- The loop body of `GlobalMercator.ZoomForPixelSize`: `for i in range(30)`
tests `pixelSize > Resolution(i)` and returns `i-1 if i != 0 else 0` on the
first hit; falling off the loop returns Python `None`, embedded as `none`.
The fuel argument counts the remaining iterations. -/
noncomputable def ZoomForPixelSizeAux (tileSize pixelSize : ℝ) : ℕ → ℕ → Option ℕ
  | 0, _ => none
  | fuel + 1, i =>
    if Resolution tileSize i < pixelSize then some (if i ≠ 0 then i - 1 else 0)
    else ZoomForPixelSizeAux tileSize pixelSize fuel (i + 1)

/-- `GlobalMercator.ZoomForPixelSize`: the 30-iteration loop started at `i = 0`. -/
noncomputable def ZoomForPixelSize (tileSize pixelSize : ℝ) : Option ℕ :=
  ZoomForPixelSizeAux tileSize pixelSize 30 0

/-- The loop body of `GlobalMercator.QuadTree`: `digit = 0`, `+1` when
`tx & mask`, `+2` when `ty & mask`, with `mask = 1 << (i-1)`; here `i` is the
source index minus one, so `mask = 1 <<< i`. -/
def tileDigit (tx ty i : ℕ) : ℕ :=
  (if tx &&& (1 <<< i) ≠ 0 then 1 else 0) + (if ty &&& (1 <<< i) ≠ 0 then 2 else 0)

/-- The `for i in range(zoom, 0, -1)` loop of `GlobalMercator.QuadTree`,
appending `str(digit)` for each level, most-significant mask first.  The
indices are the in-range naturals `0 ≤ tx, ty < 2^zoom` of the claim. -/
def QuadTreeAux (tx ty : ℕ) : ℕ → String
  | 0 => ""
  | i + 1 => Nat.repr (tileDigit tx ty i) ++ QuadTreeAux tx ty i

/-- `GlobalMercator.QuadTree`: flips `ty` to `(2**zoom - 1) - ty` and runs the
digit loop. -/
def QuadTree (tx ty zoom : ℕ) : String :=
  QuadTreeAux tx (2 ^ zoom - 1 - ty) zoom

end GlobalMercator

/-- Base-4, most-significant-digit-first parse of a quadkey string, the
decoding named by the claim. -/
def parseBase4 (s : String) : ℕ :=
  s.data.foldl (fun a c => a * 4 + (c.toNat - 48)) 0

/-- Extract the `tx` bits (the low bit of every base-4 digit) from a parsed
quadkey value of the given length. -/
def decodeTx : ℕ → ℕ → ℕ
  | 0, _ => 0
  | n + 1, v => v % 4 % 2 + 2 * decodeTx n (v / 4)

/-- Extract the flipped-`ty` bits (the high bit of every base-4 digit) from a
parsed quadkey value of the given length. -/
def decodeTy : ℕ → ℕ → ℕ
  | 0, _ => 0
  | n + 1, v => v % 4 / 2 + 2 * decodeTy n (v / 4)

/-- The value of the digit string produced by the quadkey loop down from
level `n`, with the mask-`2^i` digit weighted `4^i`. -/
def quadVal (tx ty : ℕ) : ℕ → ℕ
  | 0 => 0
  | i + 1 => GlobalMercator.tileDigit tx ty i * 4 ^ i + quadVal tx ty i

namespace GlobalMercator

/-- Shared computation: the Mercator origin `(0,0)` lands exactly on pixel
`(256, 256)` at zoom 1 (the centre of the 512×512 raster). -/
theorem metersToPixels_origin_zoom1 : MetersToPixels 256 0 0 1 = (256, 256) := by
  have hπ : Real.pi ≠ 0 := Real.pi_ne_zero
  unfold MetersToPixels Resolution initialResolution originShift
  rw [Prod.mk.injEq]
  constructor <;> · field_simp; ring

/-- Shared computation: pixel `(256, 256)` is assigned to tile `(0, 0)` by the
`ceil(px/tileSize) - 1` rule. -/
theorem pixelsToTile_256 : PixelsToTile 256 256 256 = (0, 0) := by
  unfold PixelsToTile
  norm_num

end GlobalMercator

open GlobalMercator in
/-- C1 (counterexample): the claim states `MetersToTile(0, 0, 1) = (1, 1)`;
in fact the origin lands on pixel 256 and the `ceil(px/256) - 1` rule assigns
it to TMS tile `(0, 0)`, not `(1, 1)`. -/
theorem claim1_counterexample : MetersToTile 256 0 0 1 ≠ (1, 1) := by
  unfold MetersToTile
  rw [metersToPixels_origin_zoom1]
  rw [pixelsToTile_256]
  decide

open GlobalMercator in
/-- C1 (amended): for tileSize 256, `MetersToTile(0, 0, 1)` returns the TMS
tile `(0, 0)` — the Mercator origin point lands exactly on the pixel-256 tile
boundary at zoom 1 and the `ceil(px/tileSize) - 1` rule assigns a boundary
pixel to the tile below, i.e. the lower-left tile of the 2×2 grid, whose
Google tile is `GoogleTile(0, 0, 1) = (0, 1)`; and `GoogleTile(1, 1, 1)`
returns `(1, 0)`. -/
theorem claim1_amended :
    MetersToTile 256 0 0 1 = (0, 0) ∧ GoogleTile 0 0 1 = (0, 1) ∧
      GoogleTile 1 1 1 = (1, 0) := by
  refine ⟨?_, by decide, by decide⟩
  unfold MetersToTile
  rw [metersToPixels_origin_zoom1]
  exact pixelsToTile_256

open GlobalMercator in
/-- C2 (counterexample): the claim states that pixel 0 maps to tile 0; in
fact `ceil(0/256) - 1 = -1`, so `PixelsToTile(0, 0) = (-1, -1)`. -/
theorem claim2_counterexample :
    PixelsToTile 256 0 0 = (-1, -1) ∧ ((-1, -1) : ℤ × ℤ) ≠ (0, 0) := by
  constructor
  · unfold PixelsToTile
    norm_num
  · decide

open GlobalMercator in
/-- C2 (amended): for every pixel coordinate `(px, py)` and positive
tileSize, `PixelsToTile` returns `(ceil(px/tileSize) - 1, ceil(py/tileSize) - 1)`;
every pixel lying exactly on a tile boundary `px = k * tileSize` (including
pixel 0, where `k = 0`) maps to tile `k - 1`, the tile whose range includes
it from below — so pixel 0 maps to tile `-1`, not to tile 0. -/
theorem claim2_amended (tileSize px py : ℝ) (h : 0 < tileSize) :
    PixelsToTile tileSize px py =
        (Int.ceil (px / tileSize) - 1, Int.ceil (py / tileSize) - 1) ∧
      ∀ k : ℤ, PixelsToTile tileSize (k * tileSize) (k * tileSize) = (k - 1, k - 1) := by
  refine ⟨rfl, fun k => ?_⟩
  have hts : tileSize ≠ 0 := ne_of_gt h
  unfold PixelsToTile
  rw [mul_div_assoc, div_self hts, mul_one, Int.ceil_intCast]

open GlobalMercator in
/-- C2 (witness): instantiating the amended claim at tileSize 256 and the
boundary pixel `2 * 256 = 512`, which maps to tile `2 - 1 = 1`. -/
theorem claim2_witness :
    PixelsToTile 256 (((2 : ℤ) : ℝ) * 256) (((2 : ℤ) : ℝ) * 256) = (2 - 1, 2 - 1) :=
  (claim2_amended 256 0 0 (by norm_num)).2 2

open GlobalMercator in
/-- C3: for every geographic point with `|lat| < 85.0511` degrees and any
longitude, `MetersToLatLon(LatLonToMeters(lat, lon))` reproduces `(lat, lon)`
exactly under the exact real arithmetic of the embedding. -/
theorem claim3_roundtrip (lat lon : ℝ) (h : |lat| < 85.0511) :
    MetersToLatLon (LatLonToMeters lat lon).1 (LatLonToMeters lat lon).2 = (lat, lon) := by
  obtain ⟨h1, h2⟩ := abs_lt.mp h
  have hπ : (0 : ℝ) < Real.pi := Real.pi_pos
  have hπ' : Real.pi ≠ 0 := ne_of_gt hπ
  have hlat0 : (0 : ℝ) < 90 + lat := by linarith
  have hθpos : 0 < (90 + lat) * Real.pi / 360 := by positivity
  have hθlt : (90 + lat) * Real.pi / 360 < Real.pi / 2 := by
    rw [div_lt_div_iff (by norm_num) (by norm_num)]
    nlinarith
  have htan : 0 < Real.tan ((90 + lat) * Real.pi / 360) :=
    Real.tan_pos_of_pos_of_lt_pi_div_two hθpos hθlt
  have hos : originShift ≠ 0 := by
    unfold originShift
    positivity
  unfold MetersToLatLon LatLonToMeters
  rw [Prod.mk.injEq]
  constructor
  · have key :
        Real.log (Real.tan ((90 + lat) * Real.pi / 360)) / (Real.pi / 180) * originShift /
              180 / originShift * 180 * (Real.pi / 180) =
          Real.log (Real.tan ((90 + lat) * Real.pi / 360)) := by
      field_simp
      ring
    rw [key, Real.exp_log htan, Real.arctan_tan (by linarith) hθlt]
    field_simp
    ring
  · field_simp
    ring

open GlobalMercator in
/-- C3 (witness): the round-trip theorem instantiated at `lat = 45`,
`lon = 100`. -/
theorem claim3_witness :
    MetersToLatLon (LatLonToMeters 45 100).1 (LatLonToMeters 45 100).2 = (45, 100) :=
  claim3_roundtrip 45 100 (by rw [abs_of_pos] <;> norm_num)

namespace GlobalMercator

/-- `Resolution` is antitone in the zoom level for a positive tile size. -/
theorem resolution_antitone (tileSize : ℝ) (hts : 0 < tileSize) {j k : ℕ} (h : j ≤ k) :
    Resolution tileSize k ≤ Resolution tileSize j := by
  have hp : (0 : ℝ) < initialResolution tileSize := by
    unfold initialResolution
    positivity
  unfold Resolution
  gcongr
  exact one_le_two

/-- If no index in the remaining window satisfies the loop test, the
`ZoomForPixelSize` loop falls off the end and returns `none`. -/
theorem zoomAux_none (tileSize pixelSize : ℝ) :
    ∀ fuel i, (∀ j, i ≤ j → j < i + fuel → ¬ Resolution tileSize j < pixelSize) →
      ZoomForPixelSizeAux tileSize pixelSize fuel i = none := by
  intro fuel
  induction fuel with
  | zero => intro i _; rfl
  | succ n ih =>
    intro i h
    simp only [ZoomForPixelSizeAux]
    rw [if_neg (h i le_rfl (by omega))]
    exact ih (i + 1) (fun j hj hj' => h j (by omega) (by omega))

/-- If `m` is the first index in the window satisfying the loop test, the
`ZoomForPixelSize` loop returns `i-1 if i != 0 else 0` evaluated at `m`. -/
theorem zoomAux_found (tileSize pixelSize : ℝ) :
    ∀ fuel i m, i ≤ m → m < i + fuel →
      (∀ j, i ≤ j → j < m → ¬ Resolution tileSize j < pixelSize) →
      Resolution tileSize m < pixelSize →
      ZoomForPixelSizeAux tileSize pixelSize fuel i =
        some (if m ≠ 0 then m - 1 else 0) := by
  intro fuel
  induction fuel with
  | zero => intro i m h1 h2 _ _; exact ((by omega : False)).elim
  | succ n ih =>
    intro i m h1 h2 hpre hm
    simp only [ZoomForPixelSizeAux]
    by_cases hi : i = m
    · subst hi
      rw [if_pos hm]
    · rw [if_neg (hpre i le_rfl (by omega))]
      exact ih (i + 1) m (by omega) (by omega) (fun j hj hj' => hpre j (by omega) hj') hm

end GlobalMercator

open GlobalMercator in
/-- C5 (counterexample): the claim states that `ZoomForPixelSize` returns a
value for every positive input; for `pixelSize = 10⁻⁷`, which is below the
finest resolution `Resolution(29)`, the loop test never fires and the Python
function returns `None`. -/
theorem claim5_counterexample :
    0 < (1 / 10 ^ 7 : ℝ) ∧ ZoomForPixelSize 256 (1 / 10 ^ 7) = none := by
  refine ⟨by norm_num, ?_⟩
  apply zoomAux_none
  intro j h0 hj
  rw [not_lt]
  have h3 : (3 : ℝ) < Real.pi := Real.pi_gt_three
  calc (1 / 10 ^ 7 : ℝ) ≤ Resolution 256 29 := by
        unfold Resolution initialResolution
        rw [div_div, le_div_iff (by positivity)]
        nlinarith
    _ ≤ Resolution 256 j := resolution_antitone 256 (by norm_num) (by omega)

open GlobalMercator in
/-- C5 (amended): for a positive tile size, `ZoomForPixelSize(pixelSize)`
scans zooms 0..29 and (a) returns 0 as soon as even `Resolution(0) =
initialResolution` is below `pixelSize`; (b) returns the largest zoom `z`
whose resolution is still `≥ pixelSize` whenever `Resolution(z+1) <
pixelSize ≤ Resolution(z)` with `z + 1 < 30`; and (c) returns no value
(Python `None`) when `pixelSize ≤ Resolution(29)`, so it does not return a
value for every positive input. -/
theorem claim5_amended (tileSize pixelSize : ℝ) (hts : 0 < tileSize) :
    (initialResolution tileSize < pixelSize →
        ZoomForPixelSize tileSize pixelSize = some 0) ∧
      (∀ z : ℕ, z + 1 < 30 → Resolution tileSize (z + 1) < pixelSize →
        pixelSize ≤ Resolution tileSize z →
        ZoomForPixelSize tileSize pixelSize = some z) ∧
      (pixelSize ≤ Resolution tileSize 29 →
        ZoomForPixelSize tileSize pixelSize = none) := by
  refine ⟨fun h0 => ?_, fun z hz h1 h2 => ?_, fun h29 => ?_⟩
  · have : ZoomForPixelSizeAux tileSize pixelSize 30 0 =
        some (if (0 : ℕ) ≠ 0 then 0 - 1 else 0) := by
      apply zoomAux_found tileSize pixelSize 30 0 0 le_rfl (by omega)
        (fun j hj hj' => ((by omega : False)).elim)
      unfold Resolution
      rw [pow_zero, div_one]
      exact h0
    simpa using this
  · have : ZoomForPixelSizeAux tileSize pixelSize 30 0 =
        some (if z + 1 ≠ 0 then z + 1 - 1 else 0) := by
      apply zoomAux_found tileSize pixelSize 30 0 (z + 1) (by omega) (by omega)
        (fun j hj hj' => ?_) h1
      rw [not_lt]
      exact le_trans h2 (resolution_antitone tileSize hts (by omega))
    simpa using this
  · apply zoomAux_none
    intro j h0 hj
    rw [not_lt]
    exact le_trans h29 (resolution_antitone tileSize hts (by omega))

open GlobalMercator in
/-- C5 (witness): at tileSize 256 and `pixelSize = 100000` the amended claim
yields zoom 0, since `Resolution(1) ≈ 78271.5 < 100000 ≤ Resolution(0) ≈
156543`. -/
theorem claim5_witness :
    0 < (256 : ℝ) ∧ ZoomForPixelSize 256 100000 = some 0 := by
  refine ⟨by norm_num, (claim5_amended 256 100000 (by norm_num)).2.1 0 (by norm_num) ?_ ?_⟩
  · unfold Resolution initialResolution
    have h4 : Real.pi < 4 := Real.pi_lt_four
    rw [div_div, div_lt_iff (by positivity)]
    norm_num
    nlinarith
  · unfold Resolution initialResolution
    have h3 : (3 : ℝ) < Real.pi := Real.pi_gt_three
    rw [pow_zero, div_one, le_div_iff (by positivity)]
    nlinarith

namespace GlobalMercator

/-- Each quadkey digit is one of 0..3. -/
theorem tileDigit_lt_four (tx ty i : ℕ) : tileDigit tx ty i < 4 := by
  unfold tileDigit
  split <;> split <;> norm_num

/-- The mask-1 digit combines the low bits of `tx` and `ty`. -/
theorem tileDigit_zero (tx ty : ℕ) : tileDigit tx ty 0 = tx % 2 + 2 * (ty % 2) := by
  unfold tileDigit
  rw [show (1 : ℕ) <<< 0 = 1 from rfl, Nat.and_one_is_mod, Nat.and_one_is_mod]
  split <;> split <;> omega

/-- Testing mask `2^(i+1)` on a number is testing mask `2^i` on its half. -/
theorem tileDigit_succ (tx ty i : ℕ) :
    tileDigit tx ty (i + 1) = tileDigit (tx / 2) (ty / 2) i := by
  have key : ∀ x k : ℕ, (x &&& (1 <<< k) ≠ 0) ↔ x.testBit k = true := by
    intro x k
    rw [Nat.shiftLeft_eq, one_mul, Nat.and_two_pow]
    cases h : x.testBit k <;> simp
  unfold tileDigit
  simp only [key, Nat.testBit_add_one]

/-- Peeling the least-significant digit off the quadkey value. -/
theorem quadVal_shift (tx ty : ℕ) :
    ∀ n, quadVal tx ty (n + 1) = tx % 2 + 2 * (ty % 2) + 4 * quadVal (tx / 2) (ty / 2) n := by
  intro n
  induction n with
  | zero => simp [quadVal, tileDigit_zero]
  | succ m ih =>
    have hstep : quadVal tx ty (m + 2) = tileDigit tx ty (m + 1) * 4 ^ (m + 1) +
        quadVal tx ty (m + 1) := rfl
    rw [hstep, ih, tileDigit_succ]
    have hstep' : quadVal (tx / 2) (ty / 2) (m + 1) =
        tileDigit (tx / 2) (ty / 2) m * 4 ^ m + quadVal (tx / 2) (ty / 2) m := rfl
    rw [hstep']
    ring

/-- Decoding the low bit of every digit of the quadkey value recovers `tx`
modulo `2^n`. -/
theorem decodeTx_quadVal : ∀ n tx ty, decodeTx n (quadVal tx ty n) = tx % 2 ^ n := by
  intro n
  induction n with
  | zero => intro tx ty; simp [decodeTx, Nat.mod_one]
  | succ m ih =>
    intro tx ty
    rw [quadVal_shift]
    have hmod : (tx % 2 + 2 * (ty % 2) + 4 * quadVal (tx / 2) (ty / 2) m) % 4 =
        tx % 2 + 2 * (ty % 2) := by omega
    have hdiv : (tx % 2 + 2 * (ty % 2) + 4 * quadVal (tx / 2) (ty / 2) m) / 4 =
        quadVal (tx / 2) (ty / 2) m := by omega
    show _ % 4 % 2 + 2 * decodeTx m (_ / 4) = _
    rw [hmod, hdiv, ih]
    have h2 : (tx % 2 + 2 * (ty % 2)) % 2 = tx % 2 := by omega
    rw [h2, pow_succ', Nat.mod_mul]

/-- Decoding the high bit of every digit of the quadkey value recovers the
flipped `ty` modulo `2^n`. -/
theorem decodeTy_quadVal : ∀ n tx ty, decodeTy n (quadVal tx ty n) = ty % 2 ^ n := by
  intro n
  induction n with
  | zero => intro tx ty; simp [decodeTy, Nat.mod_one]
  | succ m ih =>
    intro tx ty
    rw [quadVal_shift]
    have hmod : (tx % 2 + 2 * (ty % 2) + 4 * quadVal (tx / 2) (ty / 2) m) % 4 =
        tx % 2 + 2 * (ty % 2) := by omega
    have hdiv : (tx % 2 + 2 * (ty % 2) + 4 * quadVal (tx / 2) (ty / 2) m) / 4 =
        quadVal (tx / 2) (ty / 2) m := by omega
    show _ % 4 / 2 + 2 * decodeTy m (_ / 4) = _
    rw [hmod, hdiv, ih]
    have h2 : (tx % 2 + 2 * (ty % 2)) / 2 = ty % 2 := by omega
    rw [h2, pow_succ', Nat.mod_mul]

/-- `str(d)` for a digit `d < 4` is the single character of code `48 + d`. -/
theorem repr_digit_data (d : ℕ) (hd : d < 4) : (Nat.repr d).data = [Nat.digitChar d] := by
  interval_cases d <;> decide

/-- Folding the base-4 parser over a single digit string. -/
theorem parse_digit (d : ℕ) (hd : d < 4) (acc : ℕ) :
    List.foldl (fun a c => a * 4 + (c.toNat - 48)) acc (Nat.repr d).data = acc * 4 + d := by
  rw [repr_digit_data d hd]
  have hchar : (Nat.digitChar d).toNat = 48 + d := by interval_cases d <;> decide
  simp only [List.foldl_cons, List.foldl_nil, hchar]
  omega

/-- The base-4 parse of the quadkey digit loop output, with accumulator. -/
theorem parse_quadTreeAux (tx ty : ℕ) :
    ∀ n acc, List.foldl (fun a c => a * 4 + (c.toNat - 48)) acc (QuadTreeAux tx ty n).data =
      acc * 4 ^ n + quadVal tx ty n := by
  intro n
  induction n with
  | zero => intro acc; simp [QuadTreeAux, quadVal]
  | succ m ih =>
    intro acc
    show List.foldl _ acc (Nat.repr (tileDigit tx ty m) ++ QuadTreeAux tx ty m).data = _
    rw [String.data_append, List.foldl_append, parse_digit _ (tileDigit_lt_four tx ty m), ih]
    have hq : quadVal tx ty (m + 1) = tileDigit tx ty m * 4 ^ m + quadVal tx ty m := rfl
    rw [hq]
    ring

/-- The digit loop produces one character per level. -/
theorem quadTreeAux_length (tx ty : ℕ) : ∀ n, (QuadTreeAux tx ty n).length = n := by
  intro n
  induction n with
  | zero => rfl
  | succ m ih =>
    show (Nat.repr (tileDigit tx ty m) ++ QuadTreeAux tx ty m).length = m + 1
    rw [String.length_append, ih]
    have h1 : (Nat.repr (tileDigit tx ty m)).length = 1 := by
      have := repr_digit_data (tileDigit tx ty m) (tileDigit_lt_four tx ty m)
      show (Nat.repr (tileDigit tx ty m)).data.length = 1
      rw [this]
      rfl
    omega

end GlobalMercator

open GlobalMercator in
/-- C6: for every zoom and tile indices `0 ≤ tx, ty < 2^zoom`, the quadkey
`QuadTree(tx, ty, zoom)` is a digit string of length exactly `zoom` (empty at
zoom 0), and parsing it as a base-4 number, most-significant digit first,
reconstructs `tx` from the low bits and the flipped index `2^zoom - 1 - ty`
from the high bits of the digits. -/
theorem claim6_quadtree (zoom tx ty : ℕ) (htx : tx < 2 ^ zoom) (hty : ty < 2 ^ zoom) :
    (QuadTree tx ty zoom).length = zoom ∧ QuadTree tx ty 0 = "" ∧
      decodeTx zoom (parseBase4 (QuadTree tx ty zoom)) = tx ∧
      decodeTy zoom (parseBase4 (QuadTree tx ty zoom)) = 2 ^ zoom - 1 - ty := by
  have hparse : parseBase4 (QuadTree tx ty zoom) = quadVal tx (2 ^ zoom - 1 - ty) zoom := by
    unfold parseBase4 QuadTree
    rw [parse_quadTreeAux]
    ring
  have hpow : 1 ≤ 2 ^ zoom := Nat.one_le_two_pow
  refine ⟨quadTreeAux_length _ _ zoom, rfl, ?_, ?_⟩
  · rw [hparse, decodeTx_quadVal, Nat.mod_eq_of_lt htx]
  · rw [hparse, decodeTy_quadVal, Nat.mod_eq_of_lt (by omega)]

open GlobalMercator in
/-- C6 (witness): at zoom 2, `tx = 1`, `ty = 2` the quadkey is `"03"`,
whose parse `3` decodes to `tx = 1` and flipped ty `1 = 2^2 - 1 - 2`. -/
theorem claim6_witness :
    1 < 2 ^ 2 ∧ 2 < 2 ^ 2 ∧
      ((QuadTree 1 2 2).length = 2 ∧ QuadTree 1 2 0 = "" ∧
        decodeTx 2 (parseBase4 (QuadTree 1 2 2)) = 1 ∧
        decodeTy 2 (parseBase4 (QuadTree 1 2 2)) = 2 ^ 2 - 1 - 2) :=
  ⟨by norm_num, by norm_num, claim6_quadtree 2 1 2 (by norm_num) (by norm_num)⟩

namespace GlobalGeodetic

/-- `GlobalGeodetic.Resolution`: `180 / 256.0 / 2**zoom`, ignoring the
configured `self.tileSize` (kept as an argument to mirror the method). -/
noncomputable def Resolution (tileSize : ℝ) (zoom : ℕ) : ℝ := 180 / 256 / 2 ^ zoom

/-- `GlobalGeodetic.LatLonToPixels`: `res = 180 / 256.0 / 2**zoom`;
`px = (180 + lat) / res`, `py = (90 + lon) / res` — the source's exact
arithmetic, including its swapped lat/lon roles and its hard-coded 256. -/
noncomputable def LatLonToPixels (tileSize lat lon : ℝ) (zoom : ℕ) : ℝ × ℝ :=
  ((180 + lat) / (180 / 256 / 2 ^ zoom), (90 + lon) / (180 / 256 / 2 ^ zoom))

/-- `GlobalGeodetic.PixelsToTile`: `ceil(p / float(tileSize)) - 1` on each
axis, using the configured tile size. -/
noncomputable def PixelsToTile (tileSize px py : ℝ) : ℤ × ℤ :=
  (Int.ceil (px / tileSize) - 1, Int.ceil (py / tileSize) - 1)

/-- `GlobalGeodetic.TileBounds`: `res = 180 / 256.0 / 2**zoom` and then
`(tx*256*res - 180, ty*256*res - 90, (tx+1)*256*res - 180, (ty+1)*256*res - 90)`
— both the resolution and the 256-pixel tile width are hard-coded,
independent of the configured `self.tileSize` (kept as an argument to
mirror the method). -/
noncomputable def TileBounds (tileSize : ℝ) (tx ty : ℤ) (zoom : ℕ) : ℝ × ℝ × ℝ × ℝ :=
  ((tx : ℝ) * 256 * (180 / 256 / 2 ^ zoom) - 180,
   (ty : ℝ) * 256 * (180 / 256 / 2 ^ zoom) - 90,
   ((tx : ℝ) + 1) * 256 * (180 / 256 / 2 ^ zoom) - 180,
   ((ty : ℝ) + 1) * 256 * (180 / 256 / 2 ^ zoom) - 90)

/-- The pixel conversion the spec's words describe for a pyramid of the
configured tile size: the same formula with `res = 180 / tileSize / 2**zoom`.
Stated only to be compared with the source's `LatLonToPixels`. -/
noncomputable def LatLonToPixelsConsistent (tileSize lat lon : ℝ) (zoom : ℕ) : ℝ × ℝ :=
  ((180 + lat) / (180 / tileSize / 2 ^ zoom), (90 + lon) / (180 / tileSize / 2 ^ zoom))

end GlobalGeodetic

/-- C10: in the Geodetic profile, `Resolution(zoom)` and the resolution used
inside `LatLonToPixels` and `TileBounds` equal `180/256/2^zoom` regardless of
the configured tileSize (so those three are independent of it), while
`PixelsToTile` divides by the configured tileSize; for any tileSize ≠ 256
the composition of `LatLonToPixels` and `PixelsToTile` therefore disagrees,
at some input, with a pyramid built consistently from that tile size. -/
theorem claim10_geodetic (tileSize : ℝ) (hts : 0 < tileSize) (hne : tileSize ≠ 256) :
    (∀ zoom : ℕ, GlobalGeodetic.Resolution tileSize zoom = 180 / 256 / 2 ^ zoom) ∧
      (∀ lat lon : ℝ, ∀ zoom : ℕ,
        GlobalGeodetic.LatLonToPixels tileSize lat lon zoom =
          GlobalGeodetic.LatLonToPixelsConsistent 256 lat lon zoom) ∧
      (∀ tx ty : ℤ, ∀ zoom : ℕ,
        GlobalGeodetic.TileBounds tileSize tx ty zoom =
          GlobalGeodetic.TileBounds 256 tx ty zoom) ∧
      ∃ lat : ℝ,
        (GlobalGeodetic.PixelsToTile tileSize
            (GlobalGeodetic.LatLonToPixels tileSize lat 0 0).1 0).1 ≠
          (GlobalGeodetic.PixelsToTile tileSize
            (GlobalGeodetic.LatLonToPixelsConsistent tileSize lat 0 0).1 0).1 := by
  have hts' : tileSize ≠ 0 := ne_of_gt hts
  refine ⟨fun zoom => rfl, fun lat lon zoom => rfl, fun tx ty zoom => rfl, ?_⟩
  rcases lt_or_gt_of_ne hne with hlt | hgt
  · refine ⟨0, ?_⟩
    have h1 : (GlobalGeodetic.LatLonToPixels tileSize 0 0 0).1 = 256 := by
      unfold GlobalGeodetic.LatLonToPixels
      norm_num
    have h2 : (GlobalGeodetic.LatLonToPixelsConsistent tileSize 0 0 0).1 = tileSize := by
      unfold GlobalGeodetic.LatLonToPixelsConsistent
      field_simp
    unfold GlobalGeodetic.PixelsToTile
    rw [h1, h2, div_self hts', Int.ceil_one]
    have hceil : 1 < Int.ceil ((256 : ℝ) / tileSize) := by
      rw [Int.lt_ceil]
      push_cast
      rw [lt_div_iff hts]
      linarith
    simp only [ne_eq]
    omega
  · refine ⟨180 * (tileSize - 256) / 256, ?_⟩
    have h1 : (GlobalGeodetic.LatLonToPixels tileSize (180 * (tileSize - 256) / 256) 0 0).1 =
        tileSize := by
      unfold GlobalGeodetic.LatLonToPixels
      field_simp
      ring
    have h2 : (GlobalGeodetic.LatLonToPixelsConsistent tileSize
        (180 * (tileSize - 256) / 256) 0 0).1 = tileSize * tileSize / 256 := by
      unfold GlobalGeodetic.LatLonToPixelsConsistent
      field_simp
      ring
    unfold GlobalGeodetic.PixelsToTile
    rw [h1, h2, div_self hts']
    have h3 : tileSize * tileSize / 256 / tileSize = tileSize / 256 := by
      field_simp
      ring
    rw [h3, Int.ceil_one]
    have hceil : 1 < Int.ceil (tileSize / 256) := by
      rw [Int.lt_ceil]
      push_cast
      rw [lt_div_iff (by norm_num : (0:ℝ) < 256)]
      linarith
    simp only [ne_eq]
    omega

/-- C10 (witness): the theorem instantiated at the configured tileSize 512. -/
theorem claim10_witness :
    (∀ zoom : ℕ, GlobalGeodetic.Resolution 512 zoom = 180 / 256 / 2 ^ zoom) ∧
      (∀ lat lon : ℝ, ∀ zoom : ℕ,
        GlobalGeodetic.LatLonToPixels 512 lat lon zoom =
          GlobalGeodetic.LatLonToPixelsConsistent 256 lat lon zoom) ∧
      (∀ tx ty : ℤ, ∀ zoom : ℕ,
        GlobalGeodetic.TileBounds 512 tx ty zoom =
          GlobalGeodetic.TileBounds 256 tx ty zoom) ∧
      ∃ lat : ℝ,
        (GlobalGeodetic.PixelsToTile 512
            (GlobalGeodetic.LatLonToPixels 512 lat 0 0).1 0).1 ≠
          (GlobalGeodetic.PixelsToTile 512
            (GlobalGeodetic.LatLonToPixelsConsistent 512 lat 0 0).1 0).1 :=
  claim10_geodetic 512 (by norm_num) (by norm_num)

namespace GUI

open GlobalMercator

/-- `GUI.LatLon2GoogleTile`: `LatLonToMeters → MetersToTile → GoogleTile`,
through the `GlobalMercator()` instance with default tile size 256. -/
noncomputable def LatLon2GoogleTile (lat lon : ℝ) (zoom : ℕ) : ℤ × ℤ :=
  GoogleTile
    (MetersToTile 256 (LatLonToMeters lat lon).1 (LatLonToMeters lat lon).2 zoom).1
    (MetersToTile 256 (LatLonToMeters lat lon).1 (LatLonToMeters lat lon).2 zoom).2 zoom

/-- Python `range(a, b + 1)` over integer tile indices: empty when `b < a`. -/
def intRange (a b : ℤ) : List ℤ :=
  List.map (fun t : ℕ => a + (t : ℤ)) (List.range (b + 1 - a).toNat)

/-- Python `range(ls, ln + 1)` over the zoom levels. -/
def natRange (a b : ℕ) : List ℕ :=
  List.map (fun t => a + t) (List.range (b + 1 - a))

/-- The destination path built by `GUI.download`:
`froot + '/' + str(i) + '/' + str(j) + '/' + str(k) + '.png'`
with `froot = self.dir + '/map'`. -/
def tilePath (froot : String) (i : ℕ) (j k : ℤ) : String :=
  froot ++ "/" ++ Nat.repr i ++ "/" ++ Int.repr j ++ "/" ++ Int.repr k ++ ".png"

/-- The triple loop of `GUI.download` enumerates `(level, x, y)`: levels
`ls..ln` ascending, for each level the corner tiles `f i` (top-left) and
`g i` (bottom-right), `x` in `(f i).1..(g i).1`, `y` in `(f i).2..(g i).2`. -/
def enumTiles (f g : ℕ → ℤ × ℤ) (ls ln : ℕ) : List (ℕ × ℤ × ℤ) :=
  (natRange ls ln).flatMap (fun i =>
    (intRange (f i).1 (g i).1).flatMap (fun j =>
      (intRange (f i).2 (g i).2).map (fun k => (i, j, k))))

/-- One iteration of the innermost loop of `GUI.download`: when the
destination file exists the tile is skipped (the `time.sleep(0.001)` branch),
otherwise the fetch job for this destination path is submitted; the counter
`count += 1` runs in both branches. -/
def dispatchStep (files : List String) (dir : String) (st : ℕ × List String)
    (t : ℕ × ℤ × ℤ) : ℕ × List String :=
  if tilePath (dir ++ "/map") t.1 t.2.1 t.2.2 ∈ files then (st.1 + 1, st.2)
  else (st.1 + 1, st.2 ++ [tilePath (dir ++ "/map") t.1 t.2.1 t.2.2])

/-- The dispatch phase of `GUI.download` against a fixed on-disk file set
(the dispatcher itself never writes tile files — the external worker does):
returns the final counter and the submitted destination paths, in order. -/
def dispatchRun (dir : String) (f g : ℕ → ℤ × ℤ) (ls ln : ℕ)
    (files : List String) : ℕ × List String :=
  (enumTiles f g ls ln).foldl (dispatchStep files dir) (0, [])

/-- The planning phase of `GUI.download`: `total` starts at 0 and each level
`i` adds `s = (xe - x + 1) * (ye - y + 1)` for the corner tiles at `i`. -/
def plannerTotal (f g : ℕ → ℤ × ℤ) (ls ln : ℕ) : ℤ :=
  (natRange ls ln).foldl
    (fun t i => t + ((g i).1 - (f i).1 + 1) * ((g i).2 - (f i).2 + 1)) 0

/-- `GUI.download` for the bounding box `(ltlat, ltlon)` / `(rblat, rblon)`:
the corner-tile functions are `LatLon2GoogleTile` at the two corners. -/
noncomputable def downloadRun (ltlat ltlon rblat rblon : ℝ) (ls ln : ℕ)
    (dir : String) (files : List String) : ℕ × List String :=
  dispatchRun dir (fun i => LatLon2GoogleTile ltlat ltlon i)
    (fun i => LatLon2GoogleTile rblat rblon i) ls ln files

/-- The planner's grand total for a bounding box. -/
noncomputable def plannerTotalBox (ltlat ltlon rblat rblon : ℝ) (ls ln : ℕ) : ℤ :=
  plannerTotal (fun i => LatLon2GoogleTile ltlat ltlon i)
    (fun i => LatLon2GoogleTile rblat rblon i) ls ln

/-- The planner's per-level tile count `(x1 - x0 + 1) * (y1 - y0 + 1)` for a
bounding box at one zoom level. -/
noncomputable def levelCount (ltlat ltlon rblat rblon : ℝ) (z : ℕ) : ℤ :=
  ((LatLon2GoogleTile rblat rblon z).1 - (LatLon2GoogleTile ltlat ltlon z).1 + 1) *
    ((LatLon2GoogleTile rblat rblon z).2 - (LatLon2GoogleTile ltlat ltlon z).2 + 1)

/-- Membership in the Python zoom range. -/
theorem mem_natRange {a b i : ℕ} : i ∈ natRange a b ↔ a ≤ i ∧ i ≤ b := by
  unfold natRange
  simp only [List.mem_map, List.mem_range]
  constructor
  · rintro ⟨t, ht, rfl⟩
    omega
  · rintro ⟨h1, h2⟩
    exact ⟨i - a, by omega, by omega⟩

/-- The loop counter advances by exactly one per enumerated tile, in both the
skip and the submit branch. -/
theorem foldl_count (files : List String) (dir : String) :
    ∀ (l : List (ℕ × ℤ × ℤ)) (st : ℕ × List String),
      (l.foldl (dispatchStep files dir) st).1 = st.1 + l.length := by
  intro l
  induction l with
  | nil => intro st; simp
  | cons t r ih =>
    intro st
    rw [List.foldl_cons, ih]
    unfold dispatchStep
    split <;> simp <;> omega

/-- The submitted jobs are exactly the enumerated destination paths that are
absent from the file set, in enumeration order. -/
theorem foldl_submitted (files : List String) (dir : String) :
    ∀ (l : List (ℕ × ℤ × ℤ)) (st : ℕ × List String),
      (l.foldl (dispatchStep files dir) st).2 =
        st.2 ++ (l.map (fun t => tilePath (dir ++ "/map") t.1 t.2.1 t.2.2)).filter
          (fun p => !decide (p ∈ files)) := by
  intro l
  induction l with
  | nil => intro st; simp
  | cons t r ih =>
    intro st
    rw [List.foldl_cons, ih, List.map_cons, List.filter_cons]
    unfold dispatchStep
    by_cases h : tilePath (dir ++ "/map") t.1 t.2.1 t.2.2 ∈ files
    · rw [if_pos h]
      simp [h]
    · rw [if_neg h]
      simp [h]

/-- Folding the planner's accumulation from an arbitrary start. -/
theorem plannerFold_init (f g : ℕ → ℤ × ℤ) :
    ∀ (L : List ℕ) (a : ℤ),
      L.foldl (fun t i => t + ((g i).1 - (f i).1 + 1) * ((g i).2 - (f i).2 + 1)) a =
        a + L.foldl (fun t i => t + ((g i).1 - (f i).1 + 1) * ((g i).2 - (f i).2 + 1)) 0 := by
  intro L
  induction L with
  | nil => intro a; simp
  | cons i r ih =>
    intro a
    rw [List.foldl_cons, List.foldl_cons, ih, ih (0 + _)]
    ring

/-- Length of the Python integer range, as an integer, when nonempty. -/
theorem intRange_length (a b : ℤ) (h : a ≤ b) : ((intRange a b).length : ℤ) = b - a + 1 := by
  unfold intRange
  simp only [List.length_map, List.length_range]
  omega

/-- Sum of a constant function over a list. -/
theorem sum_map_const {α : Type} (l : List α) (c : ℕ) :
    (l.map (fun _ => c)).sum = l.length * c := by
  induction l with
  | nil => simp
  | cons x r ih =>
    simp only [List.map_cons, List.sum_cons, ih, List.length_cons]
    ring

/-- One level of the enumeration contributes exactly the planner's per-level
product, provided that level's corner rectangle is well-oriented. -/
theorem levelTiles_length (f g : ℕ → ℤ × ℤ) (i : ℕ)
    (h1 : (f i).1 ≤ (g i).1) (h2 : (f i).2 ≤ (g i).2) :
    (((intRange (f i).1 (g i).1).flatMap (fun j =>
        (intRange (f i).2 (g i).2).map (fun k => (i, j, k)))).length : ℤ) =
      ((g i).1 - (f i).1 + 1) * ((g i).2 - (f i).2 + 1) := by
  rw [List.length_flatMap]
  have hmap : List.map (List.length ∘ fun j =>
        List.map (fun k => (i, j, k)) (intRange (f i).2 (g i).2))
        (intRange (f i).1 (g i).1) =
      List.replicate (intRange (f i).1 (g i).1).length (intRange (f i).2 (g i).2).length := by
    simp only [Function.comp_def, List.length_map]
    exact List.map_const' _ _
  rw [hmap, List.sum_replicate, smul_eq_mul]
  push_cast
  rw [intRange_length _ _ h1, intRange_length _ _ h2]

/-- The number of enumerated tiles equals the planner's grand total whenever
every level's corner rectangle is well-oriented. -/
theorem enumTiles_length (f g : ℕ → ℤ × ℤ) (ls ln : ℕ)
    (h : ∀ i ∈ natRange ls ln, (f i).1 ≤ (g i).1 ∧ (f i).2 ≤ (g i).2) :
    ((enumTiles f g ls ln).length : ℤ) = plannerTotal f g ls ln := by
  unfold enumTiles plannerTotal
  have main : ∀ (L : List ℕ), (∀ i ∈ L, (f i).1 ≤ (g i).1 ∧ (f i).2 ≤ (g i).2) →
      (((L.flatMap (fun i =>
          (intRange (f i).1 (g i).1).flatMap (fun j =>
            (intRange (f i).2 (g i).2).map (fun k => (i, j, k))))).length : ℤ) =
        L.foldl (fun t i => t + ((g i).1 - (f i).1 + 1) * ((g i).2 - (f i).2 + 1)) 0) := by
    intro L
    induction L with
    | nil => intro _; simp
    | cons i r ih =>
      intro hL
      have hi := hL i (List.mem_cons_self i r)
      rw [List.flatMap_cons, List.length_append, List.foldl_cons, plannerFold_init]
      push_cast
      rw [ih (fun j hj => hL j (List.mem_cons_of_mem i hj)),
        levelTiles_length f g i hi.1 hi.2]
      ring
  exact main (natRange ls ln) h

end GUI

/-- Pixels of the form `X * 256` land in tile `ceil(X) - 1` at tileSize 256. -/
theorem pixelsToTile_mul256 (X Y : ℝ) :
    GlobalMercator.PixelsToTile 256 (X * 256) (Y * 256) =
      (Int.ceil X - 1, Int.ceil Y - 1) := by
  unfold GlobalMercator.PixelsToTile
  rw [mul_div_cancel_right₀ _ (by norm_num : (256 : ℝ) ≠ 0),
    mul_div_cancel_right₀ _ (by norm_num : (256 : ℝ) ≠ 0)]

/-- Closed form of `GUI.LatLon2GoogleTile` on the equator: the latitude
pipeline degenerates to `log(tan(π/4)) = 0` and π cancels throughout. -/
theorem latLon2GoogleTile_lat0 (lon : ℝ) (z : ℕ) :
    GUI.LatLon2GoogleTile 0 lon z =
      (Int.ceil ((lon / 360 + 1 / 2) * 2 ^ z) - 1,
        (2 ^ z - 1) - (Int.ceil ((2 ^ z : ℝ) / 2) - 1)) := by
  have hπ : Real.pi ≠ 0 := Real.pi_ne_zero
  have h2z : ((2 : ℝ) ^ z) ≠ 0 := by positivity
  have hpix : GlobalMercator.MetersToPixels 256 (GlobalMercator.LatLonToMeters 0 lon).1
      (GlobalMercator.LatLonToMeters 0 lon).2 z =
      ((lon / 360 + 1 / 2) * 2 ^ z * 256, (2 ^ z : ℝ) / 2 * 256) := by
    unfold GlobalMercator.MetersToPixels GlobalMercator.LatLonToMeters
      GlobalMercator.Resolution GlobalMercator.initialResolution GlobalMercator.originShift
    rw [Prod.mk.injEq]
    constructor
    · field_simp
      ring
    · rw [show (90 + (0 : ℝ)) * Real.pi / 360 = Real.pi / 4 by ring,
        Real.tan_pi_div_four, Real.log_one]
      field_simp
      ring
  unfold GUI.LatLon2GoogleTile GlobalMercator.MetersToTile
  rw [hpix]
  dsimp only
  rw [pixelsToTile_mul256]
  rfl

/-- Corner tile of the counterexample box: `(lat 0, lon 118)` at zoom 6. -/
theorem tile_0_118_6 : GUI.LatLon2GoogleTile 0 118 6 = (52, 32) := by
  rw [latLon2GoogleTile_lat0]
  have h1 : Int.ceil (((118 : ℝ) / 360 + 1 / 2) * 2 ^ 6) = 53 := by
    rw [show ((118 : ℝ) / 360 + 1 / 2) * 2 ^ 6 = 2384 / 45 by norm_num]
    rw [Int.ceil_eq_iff] <;> norm_num
  have h2 : Int.ceil (((2 : ℝ) ^ 6) / 2) = 32 := by
    rw [show ((2 : ℝ) ^ 6) / 2 = ((32 : ℤ) : ℝ) by norm_num, Int.ceil_intCast]
  rw [h1, h2]
  decide

/-- Corner tile of the counterexample box: `(lat 0, lon 100)` at zoom 6. -/
theorem tile_0_100_6 : GUI.LatLon2GoogleTile 0 100 6 = (49, 32) := by
  rw [latLon2GoogleTile_lat0]
  have h1 : Int.ceil (((100 : ℝ) / 360 + 1 / 2) * 2 ^ 6) = 50 := by
    rw [show ((100 : ℝ) / 360 + 1 / 2) * 2 ^ 6 = 448 / 9 by norm_num]
    rw [Int.ceil_eq_iff] <;> norm_num
  have h2 : Int.ceil (((2 : ℝ) ^ 6) / 2) = 32 := by
    rw [show ((2 : ℝ) ^ 6) / 2 = ((32 : ℤ) : ℝ) by norm_num, Int.ceil_intCast]
  rw [h1, h2]
  decide

/-- C4 (counterexample): the claim quantifies over every bounding box; for
the box with top-left `(lat 0, lon 118)` and bottom-right `(lat 0, lon 100)`
(corners swapped in longitude, which the source never validates) at zoom
6..6, the planner total is `(49 - 52 + 1) * (32 - 32 + 1) = -2` while the
dispatch loop iterates zero times, so the final counter 0 differs from the
grand total. -/
theorem claim4_counterexample :
    (GUI.downloadRun 0 118 0 100 6 6 "/data" []).1 = 0 ∧
      GUI.plannerTotalBox 0 118 0 100 6 6 = -2 ∧ ((0 : ℤ) ≠ -2) := by
  refine ⟨?_, ?_, by decide⟩
  · unfold GUI.downloadRun GUI.dispatchRun
    have henum : GUI.enumTiles (fun i => GUI.LatLon2GoogleTile 0 118 i)
        (fun i => GUI.LatLon2GoogleTile 0 100 i) 6 6 = [] := by
      unfold GUI.enumTiles
      rw [show GUI.natRange 6 6 = [6] by decide]
      simp only [List.flatMap_cons, List.flatMap_nil, List.append_nil,
        tile_0_118_6, tile_0_100_6]
      decide
    rw [henum]
    rfl
  · unfold GUI.plannerTotalBox GUI.plannerTotal
    rw [show GUI.natRange 6 6 = [6] by decide]
    simp only [List.foldl_cons, List.foldl_nil, tile_0_118_6, tile_0_100_6]
    decide

open GUI in
/-- C4 (amended): for every bounding box, zoom range `ls ≤ ln` and file set,
provided each level's corner rectangle is well-oriented (top-left tile index
componentwise ≤ bottom-right tile index, which holds for a box whose top-left
corner is north-west of its bottom-right corner), the per-level planner count
is `(x1-x0+1)*(y1-y0+1)`, the grand total is their sum, and the dispatch
loop's final counter equals that grand total — each enumerated tile
increments the counter exactly once whether skipped or submitted,
independent of the file set and of any fetch outcome. -/
theorem claim4_amended (ltlat ltlon rblat rblon : ℝ) (ls ln : ℕ) (dir : String)
    (files : List String) (hls : ls ≤ ln)
    (hmono : ∀ i : ℕ, ls ≤ i → i ≤ ln →
      (LatLon2GoogleTile ltlat ltlon i).1 ≤ (LatLon2GoogleTile rblat rblon i).1 ∧
        (LatLon2GoogleTile ltlat ltlon i).2 ≤ (LatLon2GoogleTile rblat rblon i).2) :
    ((downloadRun ltlat ltlon rblat rblon ls ln dir files).1 : ℤ) =
      plannerTotalBox ltlat ltlon rblat rblon ls ln := by
  unfold downloadRun dispatchRun plannerTotalBox
  rw [foldl_count]
  have h := enumTiles_length (fun i => LatLon2GoogleTile ltlat ltlon i)
    (fun i => LatLon2GoogleTile rblat rblon i) ls ln
    (fun i hi => hmono i (mem_natRange.mp hi).1 (mem_natRange.mp hi).2)
  rw [← h]
  norm_num

open GUI in
/-- C4 (witness): the amended claim at the properly-oriented box with
top-left `(lat 0, lon 100)`, bottom-right `(lat 0, lon 118)`, zoom 6..6. -/
theorem claim4_witness :
    ((downloadRun 0 100 0 118 6 6 "/data" []).1 : ℤ) =
      plannerTotalBox 0 100 0 118 6 6 := by
  apply claim4_amended 0 100 0 118 6 6 "/data" [] le_rfl
  intro i h1 h2
  have hi : i = 6 := le_antisymm h2 h1
  subst hi
  rw [tile_0_100_6, tile_0_118_6]
  exact ⟨by decide, by decide⟩

open GUI in
/-- C8: running the dispatcher twice with the same bounding-box corner tiles,
zoom range and output root submits zero fetch jobs on the second run,
provided no file was deleted between the runs (`hkeep`) and the external
worker fulfilled every job submitted by the first run by writing its
destination path (`hdone`) — then every destination path tested on the
second run already exists on disk. -/
theorem claim8_idempotent (dir : String) (f g : ℕ → ℤ × ℤ) (ls ln : ℕ)
    (files0 files1 : List String)
    (hkeep : ∀ p, p ∈ files0 → p ∈ files1)
    (hdone : ∀ p, p ∈ (dispatchRun dir f g ls ln files0).2 → p ∈ files1) :
    (dispatchRun dir f g ls ln files1).2 = [] := by
  unfold dispatchRun at hdone ⊢
  rw [foldl_submitted] at hdone ⊢
  dsimp only at hdone ⊢
  rw [List.nil_append] at hdone ⊢
  rw [List.filter_eq_nil_iff]
  intro q hq
  have hmem : q ∈ files1 := by
    by_cases h0 : q ∈ files0
    · exact hkeep q h0
    · apply hdone q
      rw [List.mem_filter]
      exact ⟨hq, by simp [h0]⟩
  simp [hmem]

open GUI in
/-- C8 (witness): a one-tile run from an empty disk submits exactly
`"r/map/0/0/0.png"`; rerunning with that file present submits nothing. -/
theorem claim8_witness :
    (dispatchRun "r" (fun _ => (0, 0)) (fun _ => (0, 0)) 0 0
      [tilePath ("r" ++ "/map") 0 0 0]).2 = [] := by
  apply claim8_idempotent "r" (fun _ => (0, 0)) (fun _ => (0, 0)) 0 0 []
    [tilePath ("r" ++ "/map") 0 0 0]
  · intro p hp
    exact absurd hp (List.not_mem_nil p)
  · intro p hp
    have hrun : (dispatchRun "r" (fun _ => ((0 : ℤ), (0 : ℤ))) (fun _ => (0, 0)) 0 0 []).2 =
        [tilePath ("r" ++ "/map") 0 0 0] := by decide
    rw [hrun] at hp
    exact hp

/-- The decimal digit list of a natural number, most significant first:
the fuel-free core of `Nat.repr`. -/
def natDigits (n : ℕ) : List Char :=
  if h : n < 10 then [Nat.digitChar n]
  else natDigits (n / 10) ++ [Nat.digitChar (n % 10)]
decreasing_by exact Nat.div_lt_self (by omega) (by norm_num)

/-- `Nat.toDigitsCore` with enough fuel prepends the digit list. -/
theorem toDigitsCore_eq_natDigits :
    ∀ fuel n ds, n < fuel → Nat.toDigitsCore 10 fuel n ds = natDigits n ++ ds := by
  intro fuel
  induction fuel with
  | zero => intro n ds h; exact ((by omega : False)).elim
  | succ m ih =>
    intro n ds h
    simp only [Nat.toDigitsCore]
    by_cases h10 : n / 10 = 0
    · have hn : n < 10 := by omega
      rw [if_pos h10, natDigits, dif_pos hn, Nat.mod_eq_of_lt hn]
      rfl
    · have hdiv : n / 10 < n := Nat.div_lt_self (by omega) (by norm_num)
      rw [if_neg h10, ih (n / 10) _ (by omega)]
      conv_rhs => rw [natDigits, dif_neg (by omega : ¬n < 10)]
      simp [List.append_assoc]

/-- `Nat.repr` is the digit list, as a string. -/
theorem repr_eq_natDigits (n : ℕ) : Nat.repr n = (natDigits n).asString := by
  unfold Nat.repr Nat.toDigits
  rw [toDigitsCore_eq_natDigits (n + 1) n [] (by omega)]
  simp

/-- Decimal value of a digit character list. -/
def digitsVal (l : List Char) : ℕ :=
  l.foldl (fun a c => a * 10 + (c.toNat - 48)) 0

/-- Evaluating the decimal digits recovers the number. -/
theorem digitsVal_natDigits : ∀ n : ℕ, digitsVal (natDigits n) = n := by
  intro n
  induction n using Nat.strong_induction_on with
  | _ n ih =>
    rw [natDigits]
    by_cases h : n < 10
    · rw [dif_pos h]
      have hc : (Nat.digitChar n).toNat = 48 + n := by interval_cases n <;> decide
      unfold digitsVal
      simp only [List.foldl_cons, List.foldl_nil, hc]
      omega
    · rw [dif_neg h]
      unfold digitsVal
      rw [List.foldl_append]
      have hv := ih (n / 10) (Nat.div_lt_self (by omega) (by norm_num))
      unfold digitsVal at hv
      rw [hv]
      have hm : n % 10 < 10 := Nat.mod_lt _ (by norm_num)
      have hc : (Nat.digitChar (n % 10)).toNat = 48 + n % 10 := by
        interval_cases hx : n % 10 <;> decide
      simp only [List.foldl_cons, List.foldl_nil, hc]
      omega

/-- `str(n)` is injective on the naturals. -/
theorem natRepr_injective (m n : ℕ) (h : Nat.repr m = Nat.repr n) : m = n := by
  rw [repr_eq_natDigits, repr_eq_natDigits] at h
  have hdata : natDigits m = natDigits n := congrArg String.data h
  rw [← digitsVal_natDigits m, ← digitsVal_natDigits n, hdata]

/-- Decimal digit strings never contain a path separator. -/
theorem natDigits_no_slash : ∀ n : ℕ, '/' ∉ natDigits n := by
  intro n
  induction n using Nat.strong_induction_on with
  | _ n ih =>
    rw [natDigits]
    by_cases h : n < 10
    · rw [dif_pos h]
      have hcne : Nat.digitChar n ≠ '/' := by interval_cases n <;> decide
      intro hmem
      rw [List.mem_singleton] at hmem
      exact hcne hmem.symm
    · rw [dif_neg h]
      have h1 := ih (n / 10) (Nat.div_lt_self (by omega) (by norm_num))
      have hm : n % 10 < 10 := Nat.mod_lt _ (by norm_num)
      have h2 : Nat.digitChar (n % 10) ≠ '/' := by interval_cases hx : n % 10 <;> decide
      simp [List.mem_append, h1]
      exact fun hc => h2 hc.symm

/-- Splitting a character list at the first separator is unambiguous when
neither prefix contains the separator. -/
theorem append_slash_inj :
    ∀ (a b r s : List Char), '/' ∉ a → '/' ∉ b →
      a ++ '/' :: r = b ++ '/' :: s → a = b ∧ r = s := by
  intro a
  induction a with
  | nil =>
    intro b r s _ hb h
    cases b with
    | nil =>
      simp only [List.nil_append] at h
      exact ⟨rfl, by injection h⟩
    | cons c ct =>
      simp only [List.nil_append, List.cons_append] at h
      injection h with h1 h2
      exact absurd (h1 ▸ List.mem_cons_self c ct) hb
  | cons c ct ih =>
    intro b r s ha hb h
    cases b with
    | nil =>
      simp only [List.cons_append, List.nil_append] at h
      injection h with h1 h2
      exact absurd (h1.symm ▸ List.mem_cons_self c ct) ha
    | cons d dt =>
      simp only [List.cons_append] at h
      injection h with h1 h2
      obtain ⟨he, hr⟩ := ih dt r s (fun hx => ha (List.mem_cons_of_mem c hx))
        (fun hx => hb (List.mem_cons_of_mem d hx)) h2
      exact ⟨by rw [h1, he], hr⟩

/-- Digit lists determine their number. -/
theorem natDigits_injective (m n : ℕ) (h : natDigits m = natDigits n) : m = n := by
  rw [← digitsVal_natDigits m, h, digitsVal_natDigits]

/-- The constructed destination path determines the `(zoom, x, y)` triple,
for nonnegative tile indices and a common root. -/
theorem tilePath_inj (froot : String) (i1 : ℕ) (j1 k1 : ℤ) (i2 : ℕ) (j2 k2 : ℤ)
    (hj1 : 0 ≤ j1) (hk1 : 0 ≤ k1) (hj2 : 0 ≤ j2) (hk2 : 0 ≤ k2)
    (h : GUI.tilePath froot i1 j1 k1 = GUI.tilePath froot i2 j2 k2) :
    i1 = i2 ∧ j1 = j2 ∧ k1 = k2 := by
  obtain ⟨a1, rfl⟩ := Int.eq_ofNat_of_zero_le hj1
  obtain ⟨b1, rfl⟩ := Int.eq_ofNat_of_zero_le hk1
  obtain ⟨a2, rfl⟩ := Int.eq_ofNat_of_zero_le hj2
  obtain ⟨b2, rfl⟩ := Int.eq_ofNat_of_zero_le hk2
  unfold GUI.tilePath at h
  have hd := congrArg String.data h
  have hintrep : ∀ x : ℕ, Int.repr (x : ℤ) = Nat.repr x := fun x => rfl
  have hrepr : ∀ x : ℕ, (Nat.repr x).data = natDigits x := fun x => by
    rw [repr_eq_natDigits]
    rfl
  have hslash : ("/" : String).data = ['/'] := rfl
  have hpng : (".png" : String).data = ['.', 'p', 'n', 'g'] := rfl
  simp only [String.data_append, hintrep, hrepr, hslash, hpng, List.append_assoc,
    List.singleton_append] at hd
  have h2 := List.append_cancel_left hd
  injection h2 with _ h3
  obtain ⟨hi, h4⟩ := append_slash_inj _ _ _ _ (natDigits_no_slash i1)
    (natDigits_no_slash i2) h3
  obtain ⟨hj, h5⟩ := append_slash_inj _ _ _ _ (natDigits_no_slash a1)
    (natDigits_no_slash a2) h4
  have hk := List.append_cancel_right h5
  refine ⟨natDigits_injective _ _ hi, ?_, ?_⟩
  · rw [natDigits_injective _ _ hj]
  · rw [natDigits_injective _ _ hk]

/-- C9: within a run, the destination file path `root/map/zoom/x/y.png` is
unique per `(zoom, x, y)`: distinct triples with nonnegative components yield
distinct path strings, so no two submitted jobs share a destination. -/
theorem claim9_path_unique (froot : String) (i1 : ℕ) (j1 k1 : ℤ) (i2 : ℕ) (j2 k2 : ℤ)
    (hj1 : 0 ≤ j1) (hk1 : 0 ≤ k1) (hj2 : 0 ≤ j2) (hk2 : 0 ≤ k2)
    (hne : (i1, j1, k1) ≠ (i2, j2, k2)) :
    GUI.tilePath froot i1 j1 k1 ≠ GUI.tilePath froot i2 j2 k2 := by
  intro h
  obtain ⟨h1, h2, h3⟩ := tilePath_inj froot i1 j1 k1 i2 j2 k2 hj1 hk1 hj2 hk2 h
  exact hne (by rw [h1, h2, h3])

/-- C9 (witness): the uniqueness theorem at the concrete root `"r/map"` and
the neighbouring tiles `(1, 2, 3)` and `(1, 2, 4)`. -/
theorem claim9_witness : GUI.tilePath "r/map" 1 2 3 ≠ GUI.tilePath "r/map" 1 2 4 :=
  claim9_path_unique "r/map" 1 2 3 1 2 4 (by norm_num) (by norm_num) (by norm_num)
    (by norm_num) (by decide)

open GlobalMercator in
/-- Closed form of `GUI.LatLon2GoogleTile`: the x index depends only on the
longitude, the y index only on the latitude, through the ceil-of-pixel rule
and the Google flip. -/
theorem latLon2GoogleTile_formula (lat lon : ℝ) (z : ℕ) :
    GUI.LatLon2GoogleTile lat lon z =
      (Int.ceil (((LatLonToMeters 0 lon).1 + originShift) / Resolution 256 z / 256) - 1,
        (2 ^ z - 1) -
          (Int.ceil (((LatLonToMeters lat 0).2 + originShift) / Resolution 256 z / 256) - 1)) :=
  rfl

open GlobalMercator in
/-- Halving the resolution doubles every pixel coordinate. -/
theorem pix_succ (m : ℝ) (z : ℕ) :
    (m + originShift) / Resolution 256 (z + 1) / 256 =
      2 * ((m + originShift) / Resolution 256 z / 256) := by
  unfold Resolution initialResolution
  have hπ : Real.pi ≠ 0 := Real.pi_ne_zero
  have h2z : ((2 : ℝ) ^ z) ≠ 0 := by positivity
  field_simp
  ring

open GlobalMercator in
/-- The Mercator x coordinate is monotone in the longitude. -/
theorem mercX_mono {lon1 lon2 : ℝ} (h : lon1 ≤ lon2) :
    (LatLonToMeters 0 lon1).1 ≤ (LatLonToMeters 0 lon2).1 := by
  have hoS : (0 : ℝ) < originShift := by
    unfold originShift
    positivity
  show lon1 * originShift / 180 ≤ lon2 * originShift / 180
  gcongr

open GlobalMercator in
/-- The Mercator y coordinate is monotone in the latitude on `(-90, 90)`. -/
theorem mercY_mono {lat1 lat2 : ℝ} (h : lat1 ≤ lat2) (h1 : -90 < lat1) (h2 : lat2 < 90) :
    (LatLonToMeters lat1 0).2 ≤ (LatLonToMeters lat2 0).2 := by
  have hπ : (0 : ℝ) < Real.pi := Real.pi_pos
  have hoS : (0 : ℝ) < originShift := by
    unfold originShift
    positivity
  have hθ1pos : 0 < (90 + lat1) * Real.pi / 360 := by
    have hl : (0 : ℝ) < 90 + lat1 := by linarith
    positivity
  have hθ2lt : (90 + lat2) * Real.pi / 360 < Real.pi / 2 := by
    rw [div_lt_div_iff (by norm_num) (by norm_num)]
    nlinarith
  have hθle : (90 + lat1) * Real.pi / 360 ≤ (90 + lat2) * Real.pi / 360 := by
    gcongr
  have hθ1lt : (90 + lat1) * Real.pi / 360 < Real.pi / 2 := lt_of_le_of_lt hθle hθ2lt
  have hθ2pos : 0 < (90 + lat2) * Real.pi / 360 := lt_of_lt_of_le hθ1pos hθle
  have htan1 : 0 < Real.tan ((90 + lat1) * Real.pi / 360) :=
    Real.tan_pos_of_pos_of_lt_pi_div_two hθ1pos hθ1lt
  have htanle : Real.tan ((90 + lat1) * Real.pi / 360) ≤
      Real.tan ((90 + lat2) * Real.pi / 360) := by
    apply Real.strictMonoOn_tan.monotoneOn ⟨by linarith, hθ1lt⟩ ⟨by linarith, hθ2lt⟩ hθle
  have htan2 : 0 < Real.tan ((90 + lat2) * Real.pi / 360) := lt_of_lt_of_le htan1 htanle
  have hlog : Real.log (Real.tan ((90 + lat1) * Real.pi / 360)) ≤
      Real.log (Real.tan ((90 + lat2) * Real.pi / 360)) :=
    (Real.log_le_log_iff htan1 htan2).mpr htanle
  show Real.log (Real.tan ((90 + lat1) * Real.pi / 360)) / (Real.pi / 180) * originShift /
      180 ≤ Real.log (Real.tan ((90 + lat2) * Real.pi / 360)) / (Real.pi / 180) *
      originShift / 180
  gcongr

/-- Doubling both endpoints never shrinks the inclusive ceil-to-ceil count,
and the count is at least one for ordered endpoints. -/
theorem ceil_count_le (a b : ℝ) (hab : a ≤ b) :
    1 ≤ Int.ceil b - Int.ceil a + 1 ∧
      Int.ceil b - Int.ceil a + 1 ≤ Int.ceil (2 * b) - Int.ceil (2 * a) + 1 := by
  have h1 : Int.ceil a ≤ Int.ceil b := Int.ceil_mono hab
  refine ⟨by omega, ?_⟩
  by_cases he : Int.ceil a = Int.ceil b
  · have h2 : Int.ceil (2 * a) ≤ Int.ceil (2 * b) := Int.ceil_mono (by linarith)
    omega
  · have hlt : Int.ceil a < Int.ceil b := lt_of_le_of_ne h1 he
    have h2 : Int.ceil (2 * a) ≤ 2 * Int.ceil a := by
      rw [Int.ceil_le]
      push_cast
      have := Int.le_ceil a
      linarith
    have h3 : 2 * Int.ceil b - 1 ≤ Int.ceil (2 * b) := by
      have hb := Int.ceil_lt_add_one b
      have hc := Int.le_ceil (2 * b)
      have hcast : ((2 * Int.ceil b - 2 : ℤ) : ℝ) < ((Int.ceil (2 * b) : ℤ) : ℝ) := by
        push_cast
        linarith
      have := Int.lt_iff_add_one_le.mp (by exact_mod_cast hcast)
      omega
    omega

open GUI GlobalMercator in
/-- C7: for a fixed properly-oriented bounding box inside the Mercator band,
the planner's per-level tile count at zoom `z + 1` is at least the count at
zoom `z`. -/
theorem claim7_monotonicity (ltlat ltlon rblat rblon : ℝ) (z : ℕ)
    (hlon : ltlon ≤ rblon) (hlat : rblat ≤ ltlat)
    (h1 : -90 < rblat) (h2 : ltlat < 90) :
    levelCount ltlat ltlon rblat rblon z ≤ levelCount ltlat ltlon rblat rblon (z + 1) := by
  have hres : (0 : ℝ) < Resolution 256 z := by
    unfold Resolution initialResolution
    positivity
  have hx : ((LatLonToMeters 0 ltlon).1 + originShift) / Resolution 256 z / 256 ≤
      ((LatLonToMeters 0 rblon).1 + originShift) / Resolution 256 z / 256 := by
    have := mercX_mono hlon
    gcongr
  have hy : ((LatLonToMeters rblat 0).2 + originShift) / Resolution 256 z / 256 ≤
      ((LatLonToMeters ltlat 0).2 + originShift) / Resolution 256 z / 256 := by
    have := mercY_mono hlat h1 h2
    gcongr
  obtain ⟨hx1, hx2⟩ := ceil_count_le _ _ hx
  obtain ⟨hy1, hy2⟩ := ceil_count_le _ _ hy
  have key := mul_le_mul hx2 hy2 (by omega) (by omega)
  unfold levelCount
  simp only [latLon2GoogleTile_formula, pix_succ]
  nlinarith [key]

open GUI in
/-- C7 (witness): the monotonicity theorem at the default box of the tool
(top-left lat 26, lon 109; bottom-right lat 20, lon 118) from zoom 2 to 3. -/
theorem claim7_witness :
    levelCount 26 109 20 118 2 ≤ levelCount 26 109 20 118 3 :=
  claim7_monotonicity 26 109 20 118 2 (by norm_num) (by norm_num) (by norm_num) (by norm_num)
